import Mathlib

/-!
Formal model of the Upbit streaming subscription client
(`src/api/upbit_websocket.py`, together with its persistence collaborator
`src/database/db_manager.py` and the constants of `src/config/config.py`).

The Python code is embedded shallowly:
* `subscribed_markets` (a Python `set` of strings) is a duplicate-free list
  (adding appends when absent; Python sets cannot hold duplicates, so
  duplicate freedom is part of the data model, not a proved invariant);
* `subscribed_types` (a Python `dict` from market codes to lists of
  channel-type names) is an association list in insertion order with
  duplicate-free keys, mirroring dict semantics;
* `uuid.uuid4()` draws and `datetime.now()` samples are environment inputs
  supplied per call;
* transport outcomes (`websockets.connect`, `websocket.send`) and database
  availability are Boolean environment inputs;
* the unbounded mutual recursion `_subscribe` → `connect` →
  `resubscribe_all` → `_subscribe` is made total with a fuel parameter;
  exhausted fuel is reported like an escaping exception.
-/

namespace Upbit

/-- The literal channel-type list of `upbit_websocket.py` lines 207 and
275: `['ticker', 'orderbook', 'trade']`. -/
def channelTypes : List String := ["ticker", "orderbook", "trade"]

/-- Python `dict` membership test (`market in self.subscribed_types`). -/
def dictMem (d : List (String × List String)) (k : String) : Bool :=
  d.any (fun p => p.1 = k)

/-- Python `dict` lookup.  Keys of a Python dict are unique; on the
association list this reads the first binding. -/
def dictGet (d : List (String × List String)) (k : String) :
    Option (List String) :=
  match d with
  | [] => none
  | p :: r => if p.1 = k then some p.2 else dictGet r k

/-- Python `dict` assignment `d[k] = v`: overwrite in place when the key is
present, else append a new binding (insertion order). -/
def dictSet (d : List (String × List String)) (k : String) (v : List String) :
    List (String × List String) :=
  if dictMem d k then d.map (fun p => if p.1 = k then (k, v) else p)
  else d ++ [(k, v)]

/-- Python `del d[k]`. -/
def dictDel (d : List (String × List String)) (k : String) :
    List (String × List String) :=
  d.filter (fun p => p.1 ≠ k)

/-- The key list of an association list. -/
def keysOf (d : List (String × List String)) : List String := d.map Prod.fst

/-- An opaque bearer-token value (`self.auth_token` in memory; the
`auth_token` column of the `websocket_auth` table).  The repository's own
minting routine `_create_jwt_token` (`upbit_websocket.py` lines 51-63)
can never produce one: its line 63 reads `self.secret_key`, an attribute
`__init__` (lines 24-45) does not create and that no code of the
repository ever assigns, so the attribute lookup raises AttributeError
and the only tokens in the system are those already present in the
persistent store. -/
structure Token where
  value : Nat
deriving DecidableEq, Repr

/-- The in-memory token cache of `UpbitWebSocket` (`self.auth_token`,
`self.auth_expires_at`). -/
structure AuthCache where
  auth_token : Option Token
  auth_expires_at : Option Nat
deriving DecidableEq, Repr

/-- State of the `DatabaseManager` collaborator as `get_auth`/`save_auth`
see it (`db_manager.py`): whether `self.connection` is currently usable,
whether a reconnection attempt (`self.__init__()`) would succeed right now,
whether SQL statements on a usable connection succeed, and the stored
`websocket_auth` record. -/
structure DbConn where
  live : Bool
  reconnectOk : Bool
  sqlOk : Bool
  auth : Option (Token × Nat)
deriving DecidableEq, Repr

/-- Outcome of `DatabaseManager.get_auth`: a result, or an escaping
exception (the AttributeError raised by `self.cursor.execute` when the
connection and the re-initialisation both failed, which the
`except Error` clause does not catch). -/
inductive DbGetOut where
  | ok (res : Option (Token × Nat)) (db : DbConn)
  | err (db : DbConn)
deriving DecidableEq, Repr

/-- Outcome of `DatabaseManager.save_auth`, same error convention as
`DbGetOut`. -/
inductive DbSaveOut where
  | ok (saved : Bool) (db : DbConn)
  | err (db : DbConn)
deriving DecidableEq, Repr

/-- `DatabaseManager.get_auth` (`db_manager.py` lines 195-220): reconnect
if needed; on a usable connection a SQL failure is caught by
`except Error` and reported as `(None, None)`; with no usable connection
`self.cursor` is `None` and the method raises AttributeError. -/
def get_auth (db : DbConn) : DbGetOut :=
  let db1 := if db.live then db else { db with live := db.reconnectOk }
  if db1.live then
    if db1.sqlOk then .ok db1.auth db1 else .ok none db1
  else .err db1

/-- `DatabaseManager.save_auth` (`db_manager.py` lines 158-193): reconnect
if needed; on a usable connection the row is replaced and `True` returned,
a SQL failure is caught by `except Error` and `False` returned (the
transaction is not committed); with no usable connection `self.cursor` is
`None` and the method raises AttributeError. -/
def save_auth (db : DbConn) (tok : Token) (e : Nat) : DbSaveOut :=
  let db1 := if db.live then db else { db with live := db.reconnectOk }
  if db1.live then
    if db1.sqlOk then .ok true { db1 with auth := some (tok, e) }
    else .ok false db1
  else .err db1

/-- Environment inputs consumed by one `_subscribe` call: the
`uuid.uuid4()` draw for the frame ticket (line 198), the `datetime.now()`
samples of `_ensure_auth` (line 72 and line 80 may observe different
clock readings), and the outcome of `websocket.send`. -/
structure SubEnv where
  ticket : Nat
  tNow : Nat
  tDb : Nat
  sendOk : Bool
deriving DecidableEq, Repr

/-- Outcome of `_ensure_auth`: a token with the updated cache and database
plus the number of rows persisted, or an escaping exception.  Attribute
mutations made before the exception survive, as they do in Python. -/
inductive AuthOut where
  | ok (tok : Token) (c : AuthCache) (db : DbConn) (wr : Nat)
  | exn (c : AuthCache) (db : DbConn)
deriving DecidableEq, Repr

/-- Lines 85-92 of `_ensure_auth`: the mint path.  Line 86,
`self.auth_token = self._create_jwt_token()`, first evaluates the call on
its right-hand side; `_create_jwt_token`'s line 63 reads
`self.secret_key`, an attribute `__init__` (lines 24-45) does not create
and that no code of the repository ever assigns, so the call raises
AttributeError before anything is assigned: the cache is left unchanged,
and neither the assignments of lines 86-87 nor the `save_auth` call of
line 90 is ever reached. -/
def mintPath (c : AuthCache) (db : DbConn) : AuthOut :=
  .exn c db

/-- Lines 78-92 of `_ensure_auth`: consult the persisted token (line 79),
adopt it when still valid (`cached_expires_at > datetime.now()`, line 80),
else enter the mint path. -/
def ensureSlow (env : SubEnv) (c : AuthCache) (db : DbConn) : AuthOut :=
  match get_auth db with
  | .err db1 => .exn c db1
  | .ok res db1 =>
    match res with
    | some (tok, e) =>
      if env.tDb < e then .ok tok ⟨some tok, some e⟩ db1 0
      else mintPath c db1
    | none => mintPath c db1

/-- The cached-token test of line 75: `self.auth_token and
self.auth_expires_at and now < self.auth_expires_at`. -/
def memTokenOk (c : AuthCache) (now : Nat) : Bool :=
  match c.auth_token, c.auth_expires_at with
  | some _, some e => decide (now < e)
  | _, _ => false

/-- `_ensure_auth` (`upbit_websocket.py` lines 65-92). -/
def ensure_auth (env : SubEnv) (c : AuthCache) (db : DbConn) : AuthOut :=
  match c.auth_token, c.auth_expires_at with
  | some tok, some e =>
    if env.tNow < e then .ok tok c db 0 else ensureSlow env c db
  | _, _ => ensureSlow env c db

/-- One subscription request frame (`upbit_websocket.py` lines 197-209):
the structured array `[{ticket}, {type, codes, isOnlyRealtime}]`,
optionally followed by the trailing `{format: 'SIMPLE'}` element
(`hasFormat`). -/
structure Frame where
  ticket : Nat
  type : String
  codes : List String
  isOnlyRealtime : Bool
  hasFormat : Bool
deriving DecidableEq, Repr

/-- One `websockets.connect` attempt outcome. -/
structure ConnEnv where
  openOk : Bool
deriving DecidableEq, Repr

/-- The mutable attributes of `UpbitWebSocket` the claims are about.
`websocket` is `true` when `self.websocket` holds an open socket object
(`self.websocket is not None and not self.websocket.closed`). -/
structure ClientState where
  is_connected : Bool
  websocket : Bool
  subscribed_markets : List String
  subscribed_types : List (String × List String)
  cache : AuthCache
deriving DecidableEq, Repr

/-- Environment supply: the `i`-th `_subscribe` call of a run reads
`sub i`; the `j`-th physical `websockets.connect` attempt reads `conn j`. -/
structure EnvSupply where
  sub : Nat → SubEnv
  conn : Nat → ConnEnv

/-- A client state with its collaborators and the observable trace:
frames handed to `websocket.send` (`attempted`), frames the transport
accepted (`sent`), and the number of persisted token writes. -/
structure World where
  cs : ClientState
  db : DbConn
  k : Nat
  j : Nat
  attempted : List Frame
  sent : List Frame
  writes : Nat
deriving DecidableEq, Repr

/-- Result of a modelled coroutine: normal return or an escaping Python
exception; either way the mutated world is kept. -/
inductive MOut (α : Type) where
  | ok (a : α) (w : World)
  | exn (w : World)
deriving DecidableEq, Repr

/-- The world carried by either outcome. -/
def MOut.world : MOut α → World
  | .ok _ w => w
  | .exn w => w

/-- One iteration of the registry-update loop of `_subscribe`
(lines 215-220): add the market to the set, create its dict entry if
missing, append the channel type if absent. -/
def subUpdateOne (cs : ClientState) (t : String) (m : String) : ClientState :=
  let markets := if m ∈ cs.subscribed_markets then cs.subscribed_markets
                 else cs.subscribed_markets ++ [m]
  let types1 := if dictMem cs.subscribed_types m then cs.subscribed_types
                else dictSet cs.subscribed_types m []
  let cur := (dictGet types1 m).getD []
  let types2 := if t ∈ cur then types1 else dictSet types1 m (cur ++ [t])
  { cs with subscribed_markets := markets, subscribed_types := types2 }

/-- The whole registry-update loop of `_subscribe` (lines 214-220). -/
def regAdd (cs : ClientState) (t : String) (ms : List String) : ClientState :=
  ms.foldl (fun c m => subUpdateOne c t m) cs

/-- The market list `resubscribe_all` builds for one channel type
(lines 276-279): every registered market whose type list holds `t`, in
dict order. -/
def marketsOf (d : List (String × List String)) (t : String) : List String :=
  d.filterMap (fun p => if t ∈ p.2 then some p.1 else none)

/-- Lines 211-229 of `_subscribe`: hand the frame to `websocket.send`; on
success record the subscription (the registry is only updated after the
send), on a transport error disconnect and return `False`. -/
def sendAndRecord (env : SubEnv) (w : World) (t : String) (ms : List String)
    (fr : Frame) : MOut Bool :=
  let w1 := { w with attempted := w.attempted ++ [fr] }
  if env.sendOk then
    .ok true { w1 with sent := w1.sent ++ [fr], cs := regAdd w1.cs t ms }
  else
    .ok false
      { w1 with cs := { w1.cs with is_connected := false, websocket := false } }

/-- The `try` block of `_subscribe` (lines 195-229), entered with an open
socket.  The condition of line 207 (`type_name in ['ticker', 'orderbook',
'trade']`) guards both the `_ensure_auth` call and the trailing format
element; an exception escaping `_ensure_auth` is caught by the `except`
of line 225, which disconnects and returns `False`. -/
def subscribeBody (env : SubEnv) (w : World) (t : String)
    (ms : List String) : MOut Bool :=
  let fr : Frame := ⟨env.ticket, t, ms, true, false⟩
  if t ∈ channelTypes then
    match ensure_auth env w.cs.cache w.db with
    | .exn c db =>
      .ok false { w with
        db := db
        cs := { w.cs with cache := c, is_connected := false, websocket := false } }
    | .ok tok c db wr =>
      let w1 := { w with
                  db := db
                  writes := w.writes + wr
                  cs := { w.cs with cache := c } }
      sendAndRecord env w1 t ms { fr with hasFormat := true }
  else
    sendAndRecord env w t ms fr

mutual

/-- `_subscribe` (`upbit_websocket.py` lines 181-229).  Fuel bounds the
mutual recursion through `connect`; exhausted fuel behaves like an
escaping exception. -/
def subscribeM : Nat → EnvSupply → World → String → List String → MOut Bool
  | 0, _, w, _, _ => .exn w
  | Nat.succ f, sup, w, t, ms =>
    if w.cs.is_connected && w.cs.websocket then
      subscribeBody (sup.sub w.k) { w with k := w.k + 1 } t ms
    else
      match connectM f sup w with
      | .exn w1 => .exn w1
      | .ok _ w1 => subscribeBody (sup.sub w1.k) { w1 with k := w1.k + 1 } t ms

/-- `connect` (`upbit_websocket.py` lines 98-127): return at once when a
socket object is open (line 100); otherwise open a new connection, mark
connected, and replay the registry when non-empty (lines 120-121).  On
any exception the handler of lines 123-127 disconnects and re-raises. -/
def connectM : Nat → EnvSupply → World → MOut Unit
  | 0, _, w => .exn w
  | Nat.succ f, sup, w =>
    if w.cs.websocket then .ok () w
    else
      let env := sup.conn w.j
      let w1 := { w with j := w.j + 1 }
      if env.openOk then
        let w2 :=
          { w1 with cs := { w1.cs with websocket := true, is_connected := true } }
        if w2.cs.subscribed_markets.isEmpty then .ok () w2
        else
          match resubAllM f sup w2 with
          | .ok _ w3 => .ok () w3
          | .exn w3 =>
            .exn { w3 with
              cs := { w3.cs with is_connected := false, websocket := false } }
      else
        .exn { w1 with
          cs := { w1.cs with is_connected := false, websocket := false } }

/-- `resubscribe_all` (`upbit_websocket.py` lines 269-282). -/
def resubAllM : Nat → EnvSupply → World → MOut Unit
  | 0, _, w => .exn w
  | Nat.succ f, sup, w =>
    if w.cs.subscribed_types.isEmpty then .ok () w
    else resubGoM f sup w channelTypes

/-- The `for type_name in ['ticker', 'orderbook', 'trade']` loop of
`resubscribe_all` (lines 275-282): for each type with a non-empty market
list, one `_subscribe` call; its Boolean result is ignored, its
exceptions propagate. -/
def resubGoM : Nat → EnvSupply → World → List String → MOut Unit
  | 0, _, w, _ => .exn w
  | Nat.succ _, _, w, [] => .ok () w
  | Nat.succ f, sup, w, t :: r =>
    let ms := marketsOf w.cs.subscribed_types t
    if ms.isEmpty then resubGoM f sup w r
    else
      match subscribeM f sup w t ms with
      | .exn w1 => .exn w1
      | .ok _ w1 => resubGoM f sup w1 r

end

/-- `close` (`upbit_websocket.py` lines 129-139): when a socket object
exists, drop it and clear the connected flag in the `finally` step
(socket-close errors are swallowed); with no socket object the method
does nothing. -/
def closeM (w : World) : World :=
  if w.cs.websocket then
    { w with cs := { w.cs with websocket := false, is_connected := false } }
  else w

/-- The registry-removal part of `unsubscribe` (lines 246-256).  With a
channel type given and the market present in the dict, remove that type
(and the whole entry plus set membership when its list empties);
otherwise delete the entry if present and remove the market from the
set. -/
def unsubRegistry (cs : ClientState) (m : String) (tOpt : Option String) :
    ClientState :=
  match tOpt with
  | some t =>
    if dictMem cs.subscribed_types m then
      let cur := (dictGet cs.subscribed_types m).getD []
      if t ∈ cur then
        let cur1 := cur.erase t
        if cur1.isEmpty then
          { cs with
            subscribed_types := dictDel cs.subscribed_types m
            subscribed_markets := cs.subscribed_markets.erase m }
        else { cs with subscribed_types := dictSet cs.subscribed_types m cur1 }
      else cs
    else
      { cs with
        subscribed_types := dictDel cs.subscribed_types m
        subscribed_markets := cs.subscribed_markets.erase m }
  | none =>
    { cs with
      subscribed_types := dictDel cs.subscribed_types m
      subscribed_markets := cs.subscribed_markets.erase m }

/-- `unsubscribe` (`upbit_websocket.py` lines 231-267): reject unknown
markets; update the registry; then force close → connect →
resubscribe_all, any exception yielding `False`. -/
def unsubscribeM (f : Nat) (sup : EnvSupply) (w : World) (m : String)
    (tOpt : Option String) : MOut Bool :=
  if m ∈ w.cs.subscribed_markets then
    let w1 := { w with cs := unsubRegistry w.cs m tOpt }
    let w2 := closeM w1
    match connectM f sup w2 with
    | .exn w3 => .ok false w3
    | .ok _ w3 =>
      match resubAllM f sup w3 with
      | .exn w4 => .ok false w4
      | .ok _ w4 => .ok true w4
  else .ok false w

/-- The public operations of the client named by the claims. -/
inductive PubCall where
  | subTicker (ms : List String)
  | subOrderbook (ms : List String)
  | subTrade (ms : List String)
  | unsub (m : String) (tOpt : Option String)
  | resubAll
  | conn
  | close
deriving DecidableEq, Repr

/-- Run one public operation, keeping the resulting world whether the call
returned or raised. -/
def applyCall (f : Nat) (sup : EnvSupply) (c : PubCall) (w : World) : World :=
  match c with
  | .subTicker ms => (subscribeM f sup w "ticker" ms).world
  | .subOrderbook ms => (subscribeM f sup w "orderbook" ms).world
  | .subTrade ms => (subscribeM f sup w "trade" ms).world
  | .unsub m tOpt => (unsubscribeM f sup w m tOpt).world
  | .resubAll => (resubAllM f sup w).world
  | .conn => (connectM f sup w).world
  | .close => closeM w

/-- Run a sequence of public operations, each with its own fuel bound. -/
def applyCalls (sup : EnvSupply) (cs : List (Nat × PubCall)) (w : World) :
    World :=
  cs.foldl (fun w fc => applyCall fc.1 sup fc.2 w) w

/-- The freshly constructed client (`__init__`, lines 24-45) over a given
database state. -/
def initWorld (db : DbConn) : World :=
  { cs := { is_connected := false
            websocket := false
            subscribed_markets := []
            subscribed_types := []
            cache := ⟨none, none⟩ }
    db := db
    k := 0
    j := 0
    attempted := []
    sent := []
    writes := 0 }

/-- A client state reachable from a fresh client by public calls. -/
def ReachableCS (cs : ClientState) : Prop :=
  ∃ sup db calls, cs = (applyCalls sup calls (initWorld db)).cs

/-- The registry invariant claimed of the client: the market set holds
exactly the keys of the type dict, and no entry has an empty type list. -/
def RegInv (cs : ClientState) : Prop :=
  (∀ m, m ∈ cs.subscribed_markets ↔ m ∈ keysOf cs.subscribed_types) ∧
  (∀ p ∈ cs.subscribed_types, p.2 ≠ [])

/-- `RegInv` plus the representation facts of the Python data types:
dict keys are unique and a set holds no duplicates. -/
def RegWF (cs : ClientState) : Prop :=
  RegInv cs ∧ (keysOf cs.subscribed_types).Nodup ∧
    cs.subscribed_markets.Nodup

/-!
The message pipeline (`_message_receiver`, lines 308-360, in its connected
steady state, and `_message_processor`, lines 362-380).  Raw frames are the
strings `websocket.recv` returns.  `pingIn` models the keepalive test
`"ping" in data` of line 337 (a substring test on the raw frame);
`decode` models `json.loads` (line 343), partial because of
`JSONDecodeError`; `cbOk m` tells whether the consumer callback returns
normally on message `m` (its exception is caught on lines 373-374).  The
two coroutines share `self.message_queue`, a FIFO `asyncio.Queue` with the
Receiver as only producer and the Processor as only consumer; a schedule
interleaves their iterations arbitrarily, as the event loop may.
-/

/-- Joint state of the two pipeline coroutines: frames not yet read from
the socket, the queue contents, the messages already handed to the
callback in order, the keepalive acknowledgements sent, and the messages
whose callback raised (logged, line 374). -/
structure PipeState (α : Type) where
  pending : List String
  queue : List α
  delivered : List α
  pongs : Nat
  cbErrors : List α
deriving DecidableEq, Repr

/-- Which coroutine the event loop runs next. -/
inductive Actor where
  | recv
  | proc
deriving DecidableEq, Repr

/-- One connected iteration of `_message_receiver` (lines 333-346): read
the next frame; a keepalive gets its `{"pong": true}` answer and nothing
is enqueued; otherwise decode and enqueue, and on `JSONDecodeError` log
and drop just that frame.  With no frame pending the coroutine merely
waits. -/
def recvStep (decode : String → Option α) (pingIn : String → Bool)
    (s : PipeState α) : PipeState α :=
  match s.pending with
  | [] => s
  | f :: rest =>
    if pingIn f then { s with pending := rest, pongs := s.pongs + 1 }
    else
      match decode f with
      | some m => { s with pending := rest, queue := s.queue ++ [m] }
      | none => { s with pending := rest }

/-- One iteration of `_message_processor` (lines 364-380): dequeue the
next message, invoke the callback, catch and log a callback exception,
and continue.  With an empty queue the coroutine merely waits. -/
def procStep (cbOk : α → Bool) (s : PipeState α) : PipeState α :=
  match s.queue with
  | [] => s
  | m :: rest =>
    { s with
      queue := rest
      delivered := s.delivered ++ [m]
      cbErrors := if cbOk m then s.cbErrors else s.cbErrors ++ [m] }

/-- Run the pipeline under a schedule chosen by the event loop. -/
def pipeRun (decode : String → Option α) (pingIn : String → Bool)
    (cbOk : α → Bool) (sched : List Actor) (s : PipeState α) : PipeState α :=
  sched.foldl
    (fun s a =>
      match a with
      | .recv => recvStep decode pingIn s
      | .proc => procStep cbOk s) s

/-- The decodable non-keepalive frames of a frame sequence, decoded, in
arrival order. -/
def decodedOf (decode : String → Option α) (pingIn : String → Bool)
    (frames : List String) : List α :=
  frames.filterMap (fun f => if pingIn f then none else decode f)

/-- Pipeline start state: all frames still to be read. -/
def pipeStart (frames : List String) : PipeState α :=
  ⟨frames, [], [], 0, []⟩

/-- A schedule long enough to read every frame and then drain the queue. -/
def drainSched (frames : List String) : List Actor :=
  List.replicate frames.length .recv ++ List.replicate frames.length .proc

/-- The number of rows an `_ensure_auth` outcome persisted. -/
def AuthOut.writes : AuthOut → Nat
  | .ok _ _ _ wr => wr
  | .exn _ _ => 0

/-!  Concrete data for closed evaluations of the model.  -/

/-- A benign environment supply: distinct uuid draws per call, clock at 0,
healthy transport. -/
def supA : EnvSupply :=
  { sub := fun i => { ticket := 100 + i, tNow := 0, tDb := 0, sendOk := true }
    conn := fun _ => { openOk := true } }

/-- Like `supA` but every `websocket.send` fails. -/
def supB : EnvSupply :=
  { sub := fun i => { ticket := 100 + i, tNow := 0, tDb := 0, sendOk := false }
    conn := fun _ => { openOk := true } }

/-- A healthy database with no stored token. -/
def dbA : DbConn := { live := true, reconnectOk := true, sqlOk := true, auth := none }

/-- A healthy database whose `websocket_auth` table holds a token valid
until time 86400 (written by an external producer; the repository's own
mint never completes, see `Token`). -/
def dbB : DbConn :=
  { live := true, reconnectOk := true, sqlOk := true, auth := some (⟨77⟩, 86400) }

/-- A world reached from a fresh client by one successful
`subscribe_ticker(['KRW-BTC'])` call; `_ensure_auth` adopts the stored
token of `dbB` into the in-memory cache (lines 79-83). -/
def wA : World := applyCalls supA [(9, .subTicker ["KRW-BTC"])] (initWorld dbB)

/-- A connected client with an empty registry and a cached token valid
until time 86400. -/
def wConn : World :=
  { cs := { is_connected := true
            websocket := true
            subscribed_markets := []
            subscribed_types := []
            cache := ⟨some ⟨5⟩, some 86400⟩ }
    db := dbA
    k := 0
    j := 0
    attempted := []
    sent := []
    writes := 0 }

/-- The externally observable pipeline state: everything except the log of
callback failures (which only feeds the error log). -/
def sameObs {α : Type} (s1 s2 : PipeState α) : Prop :=
  s1.pending = s2.pending ∧ s1.queue = s2.queue ∧
    s1.delivered = s2.delivered ∧ s1.pongs = s2.pongs

/-! ### Dictionary lemmas -/

theorem mem_keysOf {d : List (String × List String)} {k : String} :
    k ∈ keysOf d ↔ ∃ v, (k, v) ∈ d := by
  constructor
  · intro h
    rcases List.mem_map.mp h with ⟨⟨a, b⟩, hm, he⟩
    exact ⟨b, by simpa [← he] using hm⟩
  · rintro ⟨v, hv⟩
    exact List.mem_map.mpr ⟨(k, v), hv, rfl⟩

theorem dictMem_iff {d : List (String × List String)} {k : String} :
    dictMem d k = true ↔ k ∈ keysOf d := by
  simp only [dictMem, List.any_eq_true, decide_eq_true_eq, keysOf, List.mem_map]

theorem dictMem_false_iff {d : List (String × List String)} {k : String} :
    dictMem d k = false ↔ k ∉ keysOf d := by
  rw [← dictMem_iff]
  exact Bool.eq_false_iff.trans (by simp)

theorem dictGet_mem {d : List (String × List String)} {k : String}
    {v : List String} (h : dictGet d k = some v) : (k, v) ∈ d := by
  induction d with
  | nil => simp [dictGet] at h
  | cons p r ih =>
    rw [dictGet] at h
    split at h
    · next hpk =>
      cases h
      subst hpk
      exact List.mem_cons_self _ _
    · exact List.mem_cons_of_mem _ (ih h)

theorem dictGet_isSome_of_mem_keys {d : List (String × List String)}
    {k : String} (h : k ∈ keysOf d) : ∃ v, dictGet d k = some v := by
  induction d with
  | nil => simp [keysOf] at h
  | cons p r ih =>
    rw [dictGet]
    split
    · exact ⟨p.2, rfl⟩
    · next hpk =>
      apply ih
      simp [keysOf] at h ⊢
      rcases h with h | h
      · exact absurd h.symm (by simpa using hpk)
      · exact h

theorem dictGet_of_mem_nodup {d : List (String × List String)} {k : String}
    {v : List String} (hn : (keysOf d).Nodup) (h : (k, v) ∈ d) :
    dictGet d k = some v := by
  induction d with
  | nil => simp at h
  | cons p r ih =>
    simp only [keysOf, List.map_cons, List.nodup_cons] at hn
    rcases List.mem_cons.mp h with h | h
    · rw [← h, dictGet, if_pos rfl]
    · rw [dictGet]
      split
      · next hpk =>
        exfalso
        apply hn.1
        rw [hpk]
        exact mem_keysOf.mpr ⟨v, h⟩
      · exact ih hn.2 h

theorem dictGet_append_of_not_mem {d e : List (String × List String)}
    {k : String} (h : k ∉ keysOf d) : dictGet (d ++ e) k = dictGet e k := by
  induction d with
  | nil => simp
  | cons p r ih =>
    simp only [keysOf, List.map_cons, List.mem_cons] at h
    push_neg at h
    rw [List.cons_append, dictGet, if_neg (by simpa using (h.1).symm)]
    exact ih (by simpa [keysOf] using h.2)

theorem map_setKey_id_of_not_mem {d : List (String × List String)}
    {k : String} {v : List String} (h : k ∉ keysOf d) :
    d.map (fun p => if p.1 = k then (k, v) else p) = d := by
  induction d with
  | nil => rfl
  | cons p r ih =>
    simp only [keysOf, List.map_cons, List.mem_cons] at h
    push_neg at h
    rw [List.map_cons, if_neg (fun hc => h.1 hc.symm),
      ih (by simpa [keysOf] using h.2)]

theorem keysOf_dictSet_of_mem {d : List (String × List String)} {k : String}
    (h : dictMem d k = true) (v : List String) :
    keysOf (dictSet d k v) = keysOf d := by
  rw [dictSet, if_pos h]
  unfold keysOf
  rw [List.map_map]
  apply List.map_congr_left
  intro p _
  by_cases hpk : p.1 = k
  · simp [hpk]
  · simp [hpk]

theorem keysOf_dictSet_of_not_mem {d : List (String × List String)}
    {k : String} (h : dictMem d k = false) (v : List String) :
    keysOf (dictSet d k v) = keysOf d ++ [k] := by
  rw [dictSet, if_neg (by simp [h])]
  simp [keysOf]

theorem mem_dictSet {d : List (String × List String)} {k : String}
    {v : List String} {p : String × List String} (h : p ∈ dictSet d k v) :
    p = (k, v) ∨ (p ∈ d ∧ p.1 ≠ k) := by
  rw [dictSet] at h
  split at h
  · rcases List.mem_map.mp h with ⟨q, hq, he⟩
    by_cases hqk : q.1 = k
    · rw [if_pos hqk] at he; exact Or.inl he.symm
    · rw [if_neg hqk] at he; exact Or.inr ⟨he ▸ hq, he ▸ hqk⟩
  · next hnm =>
    rcases List.mem_append.mp h with h | h
    · refine Or.inr ⟨h, fun hc => ?_⟩
      apply dictMem_false_iff.mp (by simpa using hnm)
      rw [← hc]
      exact mem_keysOf.mpr ⟨p.2, h⟩
    · exact Or.inl (by simpa using h)

theorem dictSet_of_not_mem_keys {d : List (String × List String)}
    {k : String} (h : k ∉ keysOf d) (v : List String) :
    dictSet d k v = d ++ [(k, v)] := by
  rw [dictSet, if_neg]
  simp [dictMem_false_iff.mpr h]

theorem dictGet_dictSet_self {d : List (String × List String)} {k : String}
    (v : List String) : dictGet (dictSet d k v) k = some v := by
  rw [dictSet]
  split
  · next h =>
    rw [dictMem_iff] at h
    induction d with
    | nil => simp [keysOf] at h
    | cons p r ih =>
      rw [List.map_cons, dictGet]
      by_cases hpk : p.1 = k
      · rw [if_pos (by simp [hpk])]
        simp [hpk]
      · rw [if_neg (by simp [hpk])]
        apply ih
        simp only [keysOf, List.map_cons, List.mem_cons] at h
        rcases h with h | h
        · exact absurd h.symm hpk
        · exact h
  · next h =>
    have hnm : k ∉ keysOf d := dictMem_false_iff.mp (by simpa using h)
    rw [dictGet_append_of_not_mem hnm, dictGet, if_pos rfl]

theorem mem_keysOf_dictDel {d : List (String × List String)} {k x : String} :
    x ∈ keysOf (dictDel d k) ↔ x ∈ keysOf d ∧ x ≠ k := by
  induction d with
  | nil => simp [dictDel, keysOf]
  | cons p r ih =>
    by_cases hpk : p.1 = k
    · rw [dictDel, List.filter_cons_of_neg (by simp [hpk])]
      rw [dictDel] at ih
      rw [ih]
      constructor
      · rintro ⟨h1, h2⟩; exact ⟨by simp [keysOf, List.mem_cons]; right; simpa [keysOf] using h1, h2⟩
      · rintro ⟨h1, h2⟩
        refine ⟨?_, h2⟩
        simp only [keysOf, List.map_cons, List.mem_cons] at h1
        rcases h1 with h1 | h1
        · exact absurd (h1.trans hpk) h2
        · simpa [keysOf] using h1
    · rw [dictDel, List.filter_cons_of_pos (by simp [hpk])]
      rw [dictDel] at ih
      simp only [keysOf, List.map_cons, List.mem_cons] at ih ⊢
      constructor
      · rintro (h | h)
        · exact ⟨Or.inl h, h ▸ hpk⟩
        · rcases ih.mp h with ⟨h1, h2⟩; exact ⟨Or.inr h1, h2⟩
      · rintro ⟨h1 | h1, h2⟩
        · exact Or.inl h1
        · exact Or.inr (ih.mpr ⟨h1, h2⟩)

theorem mem_dictDel {d : List (String × List String)} {k : String}
    {p : String × List String} (h : p ∈ dictDel d k) : p ∈ d :=
  List.mem_of_mem_filter h

theorem nodup_keysOf_dictDel {d : List (String × List String)} {k : String}
    (h : (keysOf d).Nodup) : (keysOf (dictDel d k)).Nodup := by
  induction d with
  | nil => simp [dictDel, keysOf]
  | cons p r ih =>
    simp only [keysOf, List.map_cons, List.nodup_cons] at h
    by_cases hpk : p.1 = k
    · rw [dictDel, List.filter_cons_of_neg (by simp [hpk])]
      exact ih h.2
    · rw [dictDel, List.filter_cons_of_pos (by simp [hpk])]
      refine List.nodup_cons.mpr ⟨?_, ih h.2⟩
      intro hc
      rw [show (List.filter (fun p => decide ¬p.1 = k) r) = dictDel r k from rfl] at hc
      exact h.1 ((mem_keysOf_dictDel.mp hc).1)

theorem nodup_keysOf_dictSet {d : List (String × List String)} {k : String}
    (h : (keysOf d).Nodup) (v : List String) :
    (keysOf (dictSet d k v)).Nodup := by
  cases hm : dictMem d k with
  | true => rw [keysOf_dictSet_of_mem hm]; exact h
  | false =>
    rw [keysOf_dictSet_of_not_mem hm]
    rw [List.nodup_append]
    exact ⟨h, List.nodup_singleton k,
      by simpa using fun hc => (dictMem_false_iff.mp hm) hc⟩

/-! ### `marketsOf` lemmas -/

theorem mem_marketsOf {d : List (String × List String)} {t m : String} :
    m ∈ marketsOf d t ↔ ∃ ts, (m, ts) ∈ d ∧ t ∈ ts := by
  simp only [marketsOf, List.mem_filterMap]
  constructor
  · rintro ⟨⟨a, b⟩, hm, he⟩
    by_cases ht : t ∈ b
    · rw [if_pos ht] at he
      cases he
      exact ⟨b, hm, ht⟩
    · rw [if_neg ht] at he; cases he
  · rintro ⟨ts, hm, ht⟩
    exact ⟨(m, ts), hm, by rw [if_pos ht]⟩

theorem marketsOf_subset_keysOf {d : List (String × List String)}
    {t m : String} (h : m ∈ marketsOf d t) : m ∈ keysOf d := by
  rcases mem_marketsOf.mp h with ⟨ts, hm, _⟩
  exact mem_keysOf.mpr ⟨ts, hm⟩

theorem nodup_marketsOf {d : List (String × List String)} {t : String}
    (h : (keysOf d).Nodup) : (marketsOf d t).Nodup := by
  induction d with
  | nil => simp [marketsOf]
  | cons p r ih =>
    simp only [keysOf, List.map_cons, List.nodup_cons] at h
    rw [marketsOf, List.filterMap_cons]
    split
    · exact ih h.2
    · next v heq =>
      refine List.nodup_cons.mpr ⟨?_, ih h.2⟩
      intro hc
      apply h.1
      have hv : v = p.1 := by
        by_cases ht : t ∈ p.2
        · rw [if_pos ht] at heq; cases heq; rfl
        · rw [if_neg ht] at heq; cases heq
      rw [show (List.filterMap (fun p => if t ∈ p.2 then some p.1 else none) r) = marketsOf r t from rfl] at hc
      exact hv ▸ marketsOf_subset_keysOf hc

/-! ### Registry invariant preservation -/

theorem regWF_removeAll {cs : ClientState} (m : String) (h : RegWF cs) :
    RegWF { cs with
      subscribed_types := dictDel cs.subscribed_types m
      subscribed_markets := cs.subscribed_markets.erase m } := by
  obtain ⟨⟨hmem, hne⟩, hkd, hmk⟩ := h
  refine ⟨⟨fun x => ?_, fun p hp => hne p (mem_dictDel hp)⟩,
    nodup_keysOf_dictDel hkd, hmk.erase m⟩
  rw [hmk.mem_erase_iff, mem_keysOf_dictDel, hmem x, and_comm]

theorem regWF_subUpdateOne {cs : ClientState} (t m : String)
    (h : RegWF cs) : RegWF (subUpdateOne cs t m) := by
  obtain ⟨⟨hmem, hne⟩, hkd, hmk⟩ := h
  by_cases hdm : dictMem cs.subscribed_types m = true
  · have hmkeys : m ∈ keysOf cs.subscribed_types := dictMem_iff.mp hdm
    have hmm : m ∈ cs.subscribed_markets := (hmem m).mpr hmkeys
    obtain ⟨ts, hts⟩ := dictGet_isSome_of_mem_keys hmkeys
    by_cases hti : t ∈ ts
    · have heq : subUpdateOne cs t m = cs := by
        unfold subUpdateOne
        simp [hdm, hmm, hts, hti]
      rw [heq]
      exact ⟨⟨hmem, hne⟩, hkd, hmk⟩
    · have heq : subUpdateOne cs t m =
          { cs with subscribed_types := dictSet cs.subscribed_types m (ts ++ [t]) } := by
        unfold subUpdateOne
        simp [hdm, hmm, hts, hti]
      rw [heq]
      refine ⟨⟨fun x => ?_, fun p hp => ?_⟩, ?_, hmk⟩
      · rw [keysOf_dictSet_of_mem hdm]
        exact hmem x
      · rcases mem_dictSet hp with h | h
        · rw [h]; simp
        · exact hne p h.1
      · rw [keysOf_dictSet_of_mem hdm]
        exact hkd
  · have hdm' : dictMem cs.subscribed_types m = false := by
      cases hx : dictMem cs.subscribed_types m
      · rfl
      · exact absurd hx hdm
    have hmkeys : m ∉ keysOf cs.subscribed_types := dictMem_false_iff.mp hdm'
    have hmm : m ∉ cs.subscribed_markets := fun hc => hmkeys ((hmem m).mp hc)
    have h1 : dictSet cs.subscribed_types m [] = cs.subscribed_types ++ [(m, [])] :=
      dictSet_of_not_mem_keys hmkeys []
    have h2 : dictGet (cs.subscribed_types ++ [(m, [])]) m = some [] := by
      rw [dictGet_append_of_not_mem hmkeys, dictGet, if_pos rfl]
    have hdm2 : dictMem (cs.subscribed_types ++ [(m, [])]) m = true := by
      rw [dictMem_iff, keysOf, List.map_append, List.mem_append]
      exact Or.inr (by simp [keysOf])
    have heq : subUpdateOne cs t m =
        { cs with
          subscribed_markets := cs.subscribed_markets ++ [m]
          subscribed_types := dictSet (cs.subscribed_types ++ [(m, [])]) m [t] } := by
      unfold subUpdateOne
      simp [hdm', hmm, h1, h2]
    rw [heq]
    have hkeys2 : keysOf (dictSet (cs.subscribed_types ++ [(m, [])]) m [t]) =
        keysOf cs.subscribed_types ++ [m] := by
      rw [keysOf_dictSet_of_mem hdm2, keysOf, List.map_append]
      simp [keysOf]
    refine ⟨⟨fun x => ?_, fun p hp => ?_⟩, ?_, ?_⟩
    · rw [hkeys2, List.mem_append, List.mem_append]
      rw [hmem x]
    · rcases mem_dictSet hp with h | h
      · rw [h]; simp
      · rcases List.mem_append.mp h.1 with h3 | h3
        · exact hne p h3
        · exfalso
          apply h.2
          simpa using congrArg Prod.fst (List.mem_singleton.mp h3)
    · rw [hkeys2]
      rw [List.nodup_append]
      exact ⟨hkd, List.nodup_singleton m, by simpa using fun hc => hmkeys hc⟩
    · rw [List.nodup_append]
      exact ⟨hmk, List.nodup_singleton m, by simpa using fun hc => hmm hc⟩

theorem regWF_regAdd {cs : ClientState} (t : String) (ms : List String)
    (h : RegWF cs) : RegWF (regAdd cs t ms) := by
  induction ms generalizing cs with
  | nil => exact h
  | cons m rest ih =>
    rw [regAdd, List.foldl_cons]
    exact ih (regWF_subUpdateOne t m h)

theorem regWF_unsubRegistry {cs : ClientState} (m : String)
    (tOpt : Option String) (h : RegWF cs) :
    RegWF (unsubRegistry cs m tOpt) := by
  obtain ⟨⟨hmem, hne⟩, hkd, hmk⟩ := h
  cases tOpt with
  | none =>
    simp only [unsubRegistry]
    exact regWF_removeAll m ⟨⟨hmem, hne⟩, hkd, hmk⟩
  | some t =>
    simp only [unsubRegistry]
    by_cases hdm : dictMem cs.subscribed_types m = true
    · rw [if_pos hdm]
      by_cases hti : t ∈ (dictGet cs.subscribed_types m).getD []
      · rw [if_pos hti]
        by_cases hce : (((dictGet cs.subscribed_types m).getD []).erase t).isEmpty = true
        · rw [if_pos hce]
          exact regWF_removeAll m ⟨⟨hmem, hne⟩, hkd, hmk⟩
        · rw [if_neg hce]
          refine ⟨⟨fun x => ?_, fun p hp => ?_⟩, ?_, hmk⟩
          · rw [keysOf_dictSet_of_mem hdm]
            exact hmem x
          · rcases mem_dictSet hp with h | h
            · rw [h]
              intro hc
              exact hce (by
                rw [show ((dictGet cs.subscribed_types m).getD []).erase t = []
                  from hc]
                rfl)
            · exact hne p h.1
          · rw [keysOf_dictSet_of_mem hdm]
            exact hkd
      · rw [if_neg hti]
        exact ⟨⟨hmem, hne⟩, hkd, hmk⟩
    · rw [if_neg hdm]
      exact regWF_removeAll m ⟨⟨hmem, hne⟩, hkd, hmk⟩

/-- `RegWF` only speaks about the two registry attributes. -/
theorem regWF_of_fields {cs cs' : ClientState}
    (h1 : cs'.subscribed_markets = cs.subscribed_markets)
    (h2 : cs'.subscribed_types = cs.subscribed_types)
    (h : RegWF cs) : RegWF cs' := by
  simp only [RegWF, RegInv, h1, h2]
  exact h

theorem regWF_sendAndRecord {env : SubEnv} {w : World} {t : String}
    {ms : List String} {fr : Frame} (h : RegWF w.cs) :
    RegWF ((sendAndRecord env w t ms fr).world).cs := by
  unfold sendAndRecord
  split
  · exact regWF_regAdd t ms h
  · exact regWF_of_fields rfl rfl h

theorem regWF_subscribeBody {env : SubEnv} {w : World} {t : String}
    {ms : List String} (h : RegWF w.cs) :
    RegWF ((subscribeBody env w t ms).world).cs := by
  unfold subscribeBody
  split
  · split
    · exact regWF_of_fields rfl rfl h
    · exact regWF_sendAndRecord (regWF_of_fields rfl rfl h)
  · exact regWF_sendAndRecord h

theorem regWF_closeM {w : World} (h : RegWF w.cs) : RegWF (closeM w).cs := by
  unfold closeM
  split
  · exact regWF_of_fields rfl rfl h
  · exact h

/-- Every coroutine of the subscribe/connect/resubscribe cluster preserves
the registry invariant, whether it returns or raises. -/
theorem regWF_run (f : Nat) :
    (∀ sup w t ms, RegWF w.cs → RegWF ((subscribeM f sup w t ms).world).cs) ∧
    (∀ sup w, RegWF w.cs → RegWF ((connectM f sup w).world).cs) ∧
    (∀ sup w, RegWF w.cs → RegWF ((resubAllM f sup w).world).cs) ∧
    (∀ sup w l, RegWF w.cs → RegWF ((resubGoM f sup w l).world).cs) := by
  induction f with
  | zero =>
    refine ⟨fun sup w t ms h => ?_, fun sup w h => ?_, fun sup w h => ?_,
      fun sup w l h => ?_⟩ <;> exact h
  | succ f ih =>
    obtain ⟨ihS, ihC, ihR, ihG⟩ := ih
    refine ⟨fun sup w t ms h => ?_, fun sup w h => ?_, fun sup w h => ?_,
      fun sup w l h => ?_⟩
    · rw [subscribeM]
      split
      · exact regWF_subscribeBody h
      · split
        · next w1 heq =>
          have := ihC sup w h
          rw [heq] at this
          exact this
        · next u w1 heq =>
          have := ihC sup w h
          rw [heq] at this
          exact regWF_subscribeBody this
    · rw [connectM]
      split
      · exact h
      · dsimp only
        split
        · split
          · exact regWF_of_fields rfl rfl h
          · split
            · next w3 heq =>
              have h5 := ihR sup
                { w with
                  j := w.j + 1
                  cs := { w.cs with websocket := true, is_connected := true } }
                (regWF_of_fields rfl rfl h)
              rw [heq] at h5
              exact h5
            · next w3 heq =>
              have h5 := ihR sup
                { w with
                  j := w.j + 1
                  cs := { w.cs with websocket := true, is_connected := true } }
                (regWF_of_fields rfl rfl h)
              rw [heq] at h5
              exact regWF_of_fields rfl rfl h5
        · exact regWF_of_fields rfl rfl h
    · rw [resubAllM]
      split
      · exact h
      · exact ihG sup w channelTypes h
    · match l with
      | [] =>
        rw [resubGoM]
        exact h
      | t :: r =>
        rw [resubGoM]
        split
        · exact ihG sup w r h
        · split
          · next w1 heq =>
            have := ihS sup w t (marketsOf w.cs.subscribed_types t) h
            rw [heq] at this
            exact this
          · next b w1 heq =>
            have := ihS sup w t (marketsOf w.cs.subscribed_types t) h
            rw [heq] at this
            exact ihG sup w1 r this

theorem regWF_unsubscribeM {f : Nat} {sup : EnvSupply} {w : World}
    {m : String} {tOpt : Option String} (h : RegWF w.cs) :
    RegWF ((unsubscribeM f sup w m tOpt).world).cs := by
  unfold unsubscribeM
  split
  · have h1 : RegWF (closeM { w with cs := unsubRegistry w.cs m tOpt }).cs :=
      regWF_closeM (regWF_unsubRegistry m tOpt h)
    dsimp only
    split
    · next w3 heq =>
      have := (regWF_run f).2.1 sup _ h1
      rw [heq] at this
      exact this
    · next u w3 heq =>
      have := (regWF_run f).2.1 sup _ h1
      rw [heq] at this
      have h3 : RegWF w3.cs := this
      split
      · next w4 heq2 =>
        have h4 := (regWF_run f).2.2.1 sup w3 h3
        rw [heq2] at h4
        exact h4
      · next u2 w4 heq2 =>
        have h4 := (regWF_run f).2.2.1 sup w3 h3
        rw [heq2] at h4
        exact h4
  · exact h

theorem regWF_applyCall {f : Nat} {sup : EnvSupply} {c : PubCall}
    {w : World} (h : RegWF w.cs) : RegWF (applyCall f sup c w).cs := by
  cases c with
  | subTicker ms => exact (regWF_run f).1 sup w "ticker" ms h
  | subOrderbook ms => exact (regWF_run f).1 sup w "orderbook" ms h
  | subTrade ms => exact (regWF_run f).1 sup w "trade" ms h
  | unsub m tOpt => exact regWF_unsubscribeM h
  | resubAll => exact (regWF_run f).2.2.1 sup w h
  | conn => exact (regWF_run f).2.1 sup w h
  | close => exact regWF_closeM h

theorem regWF_initWorld (db : DbConn) : RegWF (initWorld db).cs := by
  refine ⟨⟨fun m => ?_, fun p hp => ?_⟩, ?_, ?_⟩ <;>
    simp [initWorld, keysOf] at *

theorem regWF_applyCalls {sup : EnvSupply} {calls : List (Nat × PubCall)}
    {w : World} (h : RegWF w.cs) : RegWF (applyCalls sup calls w).cs := by
  induction calls generalizing w with
  | nil => exact h
  | cons c rest ih =>
    rw [applyCalls, List.foldl_cons]
    exact ih (regWF_applyCall h)

theorem regWF_of_reachable {cs : ClientState} (h : ReachableCS cs) :
    RegWF cs := by
  obtain ⟨sup, db, calls, rfl⟩ := h
  exact regWF_applyCalls (regWF_initWorld db)

/-! ### The steady-state behaviour of `_subscribe` -/

theorem ensure_auth_of_memTokenOk {env : SubEnv} {c : AuthCache}
    (db : DbConn) (h : memTokenOk c env.tNow = true) :
    ∃ tok, c.auth_token = some tok ∧ ensure_auth env c db = .ok tok c db 0 := by
  unfold memTokenOk at h
  split at h
  · next tok e hT hE =>
    refine ⟨tok, hT, ?_⟩
    unfold ensure_auth
    rw [hT, hE]
    dsimp only
    rw [if_pos (of_decide_eq_true h)]
  · simp at h

theorem subscribeBody_steady {env : SubEnv} {w : World} {t : String}
    {ms : List String} (hT : t ∈ channelTypes)
    (hA : memTokenOk w.cs.cache env.tNow = true) (hS : env.sendOk = true) :
    subscribeBody env w t ms = .ok true
      { w with
        cs := regAdd w.cs t ms
        attempted := w.attempted ++ [⟨env.ticket, t, ms, true, true⟩]
        sent := w.sent ++ [⟨env.ticket, t, ms, true, true⟩] } := by
  obtain ⟨tok, hTok, hE⟩ := ensure_auth_of_memTokenOk w.db hA
  unfold subscribeBody
  rw [if_pos hT, hE]
  dsimp only
  unfold sendAndRecord
  rw [if_pos hS]
  simp

theorem subscribeBody_sendFail {env : SubEnv} {w : World} {t : String}
    {ms : List String} (hT : t ∈ channelTypes)
    (hA : memTokenOk w.cs.cache env.tNow = true) (hS : env.sendOk = false) :
    subscribeBody env w t ms = .ok false
      { w with
        cs := { w.cs with is_connected := false, websocket := false }
        attempted := w.attempted ++ [⟨env.ticket, t, ms, true, true⟩] } := by
  obtain ⟨tok, hTok, hE⟩ := ensure_auth_of_memTokenOk w.db hA
  unfold subscribeBody
  rw [if_pos hT, hE]
  dsimp only
  unfold sendAndRecord
  rw [if_neg (by rw [hS]; exact Bool.false_ne_true)]
  simp

theorem subscribeM_steady {f : Nat} {sup : EnvSupply} {w : World}
    {t : String} {ms : List String} (hT : t ∈ channelTypes)
    (hC : w.cs.is_connected = true) (hW : w.cs.websocket = true)
    (hA : memTokenOk w.cs.cache (sup.sub w.k).tNow = true)
    (hS : (sup.sub w.k).sendOk = true) :
    subscribeM (f + 1) sup w t ms = .ok true
      { w with
        k := w.k + 1
        cs := regAdd w.cs t ms
        attempted := w.attempted ++ [⟨(sup.sub w.k).ticket, t, ms, true, true⟩]
        sent := w.sent ++ [⟨(sup.sub w.k).ticket, t, ms, true, true⟩] } := by
  rw [subscribeM]
  rw [if_pos (by rw [hC, hW]; rfl)]
  rw [subscribeBody_steady (w := { w with k := w.k + 1 }) hT hA hS]

theorem subscribeM_sendFail {f : Nat} {sup : EnvSupply} {w : World}
    {t : String} {ms : List String} (hT : t ∈ channelTypes)
    (hC : w.cs.is_connected = true) (hW : w.cs.websocket = true)
    (hA : memTokenOk w.cs.cache (sup.sub w.k).tNow = true)
    (hS : (sup.sub w.k).sendOk = false) :
    subscribeM (f + 1) sup w t ms = .ok false
      { w with
        k := w.k + 1
        cs := { w.cs with is_connected := false, websocket := false }
        attempted := w.attempted ++ [⟨(sup.sub w.k).ticket, t, ms, true, true⟩] } := by
  rw [subscribeM]
  rw [if_pos (by rw [hC, hW]; rfl)]
  rw [subscribeBody_sendFail (w := { w with k := w.k + 1 }) hT hA hS]

/-! ### `regAdd` fixes already-registered subscriptions -/

theorem subUpdateOne_id {cs : ClientState} {t m : String} {ts : List String}
    (hm : m ∈ cs.subscribed_markets)
    (hget : dictGet cs.subscribed_types m = some ts) (hti : t ∈ ts) :
    subUpdateOne cs t m = cs := by
  have hdm : dictMem cs.subscribed_types m = true :=
    dictMem_iff.mpr (mem_keysOf.mpr ⟨ts, dictGet_mem hget⟩)
  unfold subUpdateOne
  simp [hdm, hm, hget, hti]

theorem regAdd_id {cs : ClientState} {t : String} {ms : List String}
    (h : ∀ m ∈ ms, m ∈ cs.subscribed_markets ∧
      ∃ ts, dictGet cs.subscribed_types m = some ts ∧ t ∈ ts) :
    regAdd cs t ms = cs := by
  induction ms with
  | nil => rfl
  | cons m rest ih =>
    rw [regAdd, List.foldl_cons]
    obtain ⟨hm, ts, hget, hti⟩ := h m (List.mem_cons_self m rest)
    rw [subUpdateOne_id hm hget hti]
    exact ih (fun x hx => h x (List.mem_cons_of_mem m hx))

theorem marketsOf_get {d : List (String × List String)} {t m : String}
    (hkd : (keysOf d).Nodup) (h : m ∈ marketsOf d t) :
    ∃ ts, dictGet d m = some ts ∧ t ∈ ts := by
  rcases mem_marketsOf.mp h with ⟨ts, hm, hti⟩
  exact ⟨ts, dictGet_of_mem_nodup hkd hm, hti⟩

theorem regAdd_marketsOf_id {cs : ClientState} {t : String}
    (hwf : RegWF cs) : regAdd cs t (marketsOf cs.subscribed_types t) = cs := by
  obtain ⟨⟨hmem, _⟩, hkd, _⟩ := hwf
  apply regAdd_id
  intro m hm
  obtain ⟨ts, hget, hti⟩ := marketsOf_get hkd hm
  exact ⟨(hmem m).mpr (marketsOf_subset_keysOf hm), ts, hget, hti⟩

/-- The `resubscribe_all` loop over a type list `l`, run on a connected
client with a valid cached token and a healthy transport: it returns
normally, leaves the whole client state unchanged apart from the consumed
environment indices and the emitted frames, and emits exactly one frame
per type of `l` whose registered market list is non-empty, carrying
exactly that market list. -/
theorem resubGo_spec (l : List String) (f : Nat) (sup : EnvSupply)
    (w : World) (hwf : RegWF w.cs) (hsub : ∀ t ∈ l, t ∈ channelTypes)
    (hC : w.cs.is_connected = true) (hW : w.cs.websocket = true)
    (hSend : ∀ i, (sup.sub i).sendOk = true)
    (hAuth : ∀ i, memTokenOk w.cs.cache (sup.sub i).tNow = true) :
    ∃ frames,
      resubGoM (f + l.length + 1) sup w l = .ok ()
        { w with
          k := w.k + frames.length
          attempted := w.attempted ++ frames
          sent := w.sent ++ frames } ∧
      frames.map Frame.type =
        l.filter (fun t => !(marketsOf w.cs.subscribed_types t).isEmpty) ∧
      ∀ fr ∈ frames, fr.codes = marketsOf w.cs.subscribed_types fr.type ∧
        fr.isOnlyRealtime = true ∧ fr.hasFormat = true := by
  induction l generalizing w with
  | nil =>
    refine ⟨[], ?_, by simp, by simp⟩
    rw [show f + ([] : List String).length + 1 = Nat.succ f from rfl, resubGoM]
    simp
  | cons t r ih =>
    have hT : t ∈ channelTypes := hsub t (List.mem_cons_self t r)
    have hsub2 : ∀ x ∈ r, x ∈ channelTypes :=
      fun x hx => hsub x (List.mem_cons_of_mem t hx)
    rw [show f + (t :: r).length + 1 = Nat.succ (f + r.length + 1) from by
      simp [List.length_cons]; omega]
    rw [resubGoM]
    by_cases hme : (marketsOf w.cs.subscribed_types t).isEmpty = true
    · rw [if_pos hme]
      obtain ⟨fr2, he, hmap, hall⟩ := ih w hwf hsub2 hC hW hAuth
      refine ⟨fr2, he, ?_, hall⟩
      rw [List.filter_cons_of_neg (by simp [hme])]
      exact hmap
    · rw [if_neg hme]
      have hst := @subscribeM_steady (f + r.length) sup w t
        (marketsOf w.cs.subscribed_types t) hT hC hW (hAuth w.k) (hSend w.k)
      rw [regAdd_marketsOf_id hwf] at hst
      rw [hst]
      dsimp only
      obtain ⟨fr2, he2, hmap2, hall2⟩ := ih
        { w with
          k := w.k + 1
          cs := w.cs
          attempted := w.attempted ++
            [⟨(sup.sub w.k).ticket, t, marketsOf w.cs.subscribed_types t, true, true⟩]
          sent := w.sent ++
            [⟨(sup.sub w.k).ticket, t, marketsOf w.cs.subscribed_types t, true, true⟩] }
        hwf hsub2 hC hW hAuth
      rw [he2]
      refine ⟨⟨(sup.sub w.k).ticket, t, marketsOf w.cs.subscribed_types t,
        true, true⟩ :: fr2, ?_, ?_, ?_⟩
      · simp [List.append_assoc, Nat.add_assoc, Nat.add_comm, Nat.add_left_comm]
      · rw [List.map_cons, hmap2,
          List.filter_cons_of_pos (by simp [Bool.eq_false_iff.mpr hme])]
      · intro fr hfr
        rcases List.mem_cons.mp hfr with h | h
        · rw [h]
          exact ⟨rfl, rfl, rfl⟩
        · exact hall2 fr h

/-- `resubscribe_all` on a connected client with a valid cached token and
a healthy transport. -/
theorem resubAll_spec (f : Nat) (sup : EnvSupply) (w : World)
    (hwf : RegWF w.cs) (hC : w.cs.is_connected = true)
    (hW : w.cs.websocket = true)
    (hSend : ∀ i, (sup.sub i).sendOk = true)
    (hAuth : ∀ i, memTokenOk w.cs.cache (sup.sub i).tNow = true) :
    ∃ frames,
      resubAllM (f + 5) sup w = .ok ()
        { w with
          k := w.k + frames.length
          attempted := w.attempted ++ frames
          sent := w.sent ++ frames } ∧
      frames.map Frame.type =
        channelTypes.filter (fun t => !(marketsOf w.cs.subscribed_types t).isEmpty) ∧
      ∀ fr ∈ frames, fr.codes = marketsOf w.cs.subscribed_types fr.type ∧
        fr.isOnlyRealtime = true ∧ fr.hasFormat = true := by
  rw [show f + 5 = Nat.succ (f + 4) from rfl, resubAllM]
  by_cases hempty : w.cs.subscribed_types.isEmpty = true
  · rw [if_pos hempty]
    have hnil : w.cs.subscribed_types = [] := by
      cases hx : w.cs.subscribed_types with
      | nil => rfl
      | cons p r => rw [hx] at hempty; simp at hempty
    refine ⟨[], by simp, ?_, by simp⟩
    rw [hnil]
    decide
  · rw [if_neg hempty]
    obtain ⟨frames, he, hmap, hall⟩ :=
      resubGo_spec channelTypes f sup w hwf (fun t ht => ht) hC hW hSend hAuth
    exact ⟨frames, he, hmap, hall⟩

/-! ### `_ensure_auth` behaviour -/

/-- A valid in-memory token is returned as-is, with no mutation and no
database traffic (lines 74-76). -/
theorem ensure_auth_hit {env : SubEnv} {c : AuthCache} {db : DbConn}
    {tok : Token} {e : Nat} (hT : c.auth_token = some tok)
    (hE : c.auth_expires_at = some e) (h : env.tNow < e) :
    ensure_auth env c db = .ok tok c db 0 := by
  unfold ensure_auth
  rw [hT, hE]
  dsimp only
  rw [if_pos h]

/-- With no valid in-memory token, `_ensure_auth` proceeds to the
store-then-mint path of lines 78-92. -/
theorem ensure_auth_slow_of_invalid {env : SubEnv} {c : AuthCache}
    {db : DbConn} (h : memTokenOk c env.tNow = false) :
    ensure_auth env c db = ensureSlow env c db := by
  cases hT : c.auth_token with
  | none =>
    cases hE : c.auth_expires_at with
    | none => unfold ensure_auth; rw [hT, hE]
    | some e => unfold ensure_auth; rw [hT, hE]
  | some tok =>
    cases hE : c.auth_expires_at with
    | none => unfold ensure_auth; rw [hT, hE]
    | some e =>
      unfold memTokenOk at h
      rw [hT, hE] at h
      dsimp only at h
      unfold ensure_auth
      rw [hT, hE]
      dsimp only
      rw [if_neg (of_decide_eq_false h)]

/-- The slow path can never persist a row: the store-adoption return of
line 83 writes nothing, and the mint path raises before `save_auth` is
reached. -/
theorem ensureSlow_writes (env : SubEnv) (c : AuthCache) (db : DbConn) :
    (ensureSlow env c db).writes = 0 := by
  unfold ensureSlow mintPath
  split
  · rfl
  · split
    · split
      · rfl
      · rfl
    · rfl

/-- `_ensure_auth` can never persist a row: its only returning paths are
the memory hit of line 75 and the store adoption of lines 79-83, and the
mint path of lines 85-92 raises before `save_auth` is reached. -/
theorem ensure_auth_writes (env : SubEnv) (c : AuthCache) (db : DbConn) :
    (ensure_auth env c db).writes = 0 := by
  unfold ensure_auth
  split
  · split
    · rfl
    · exact ensureSlow_writes env c db
  all_goals exact ensureSlow_writes env c db

/-! ### Pipeline invariants -/

theorem recvStep_invariant {α : Type} (decode : String → Option α)
    (pingIn : String → Bool) (s : PipeState α) :
    (recvStep decode pingIn s).delivered ++ (recvStep decode pingIn s).queue ++
        decodedOf decode pingIn (recvStep decode pingIn s).pending =
      s.delivered ++ s.queue ++ decodedOf decode pingIn s.pending := by
  obtain ⟨pending, queue, delivered, pongs, cbErrors⟩ := s
  cases pending with
  | nil => rfl
  | cons f rest =>
    unfold recvStep
    dsimp only
    by_cases hp : pingIn f = true
    · rw [if_pos hp]
      unfold decodedOf
      rw [List.filterMap_cons]
      simp [hp]
    · rw [if_neg hp]
      have hpf : pingIn f = false := by
        cases hx : pingIn f
        · rfl
        · exact absurd hx hp
      cases hd : decode f with
      | some m =>
        unfold decodedOf
        rw [List.filterMap_cons]
        simp [hpf, hd]
      | none =>
        unfold decodedOf
        rw [List.filterMap_cons]
        simp [hpf, hd]

theorem procStep_invariant {α : Type} (decode : String → Option α)
    (pingIn : String → Bool) (cbOk : α → Bool) (s : PipeState α) :
    (procStep cbOk s).delivered ++ (procStep cbOk s).queue ++
        decodedOf decode pingIn (procStep cbOk s).pending =
      s.delivered ++ s.queue ++ decodedOf decode pingIn s.pending := by
  obtain ⟨pending, queue, delivered, pongs, cbErrors⟩ := s
  cases queue with
  | nil => rfl
  | cons m rest =>
    unfold procStep
    simp

theorem pipeRun_recv_cons {α : Type} (decode : String → Option α)
    (pingIn : String → Bool) (cbOk : α → Bool) (rest : List Actor)
    (s : PipeState α) :
    pipeRun decode pingIn cbOk (.recv :: rest) s =
      pipeRun decode pingIn cbOk rest (recvStep decode pingIn s) := rfl

theorem pipeRun_proc_cons {α : Type} (decode : String → Option α)
    (pingIn : String → Bool) (cbOk : α → Bool) (rest : List Actor)
    (s : PipeState α) :
    pipeRun decode pingIn cbOk (.proc :: rest) s =
      pipeRun decode pingIn cbOk rest (procStep cbOk s) := rfl

theorem pipeRun_append {α : Type} (decode : String → Option α)
    (pingIn : String → Bool) (cbOk : α → Bool) (l1 l2 : List Actor)
    (s : PipeState α) :
    pipeRun decode pingIn cbOk (l1 ++ l2) s =
      pipeRun decode pingIn cbOk l2 (pipeRun decode pingIn cbOk l1 s) :=
  List.foldl_append _ _ _ _

theorem pipeRun_invariant {α : Type} (decode : String → Option α)
    (pingIn : String → Bool) (cbOk : α → Bool) (sched : List Actor)
    (s : PipeState α) :
    (pipeRun decode pingIn cbOk sched s).delivered ++
        (pipeRun decode pingIn cbOk sched s).queue ++
        decodedOf decode pingIn (pipeRun decode pingIn cbOk sched s).pending =
      s.delivered ++ s.queue ++ decodedOf decode pingIn s.pending := by
  induction sched generalizing s with
  | nil => rfl
  | cons a rest ih =>
    cases a with
    | recv =>
      rw [pipeRun_recv_cons]
      exact (ih (recvStep decode pingIn s)).trans
        (recvStep_invariant decode pingIn s)
    | proc =>
      rw [pipeRun_proc_cons]
      exact (ih (procStep cbOk s)).trans
        (procStep_invariant decode pingIn cbOk s)

theorem recvRun_drains {α : Type} (decode : String → Option α)
    (pingIn : String → Bool) (cbOk : α → Bool) :
    ∀ (ps : List String) (s : PipeState α), s.pending = ps →
      (pipeRun decode pingIn cbOk (List.replicate ps.length .recv) s).pending = [] ∧
      (pipeRun decode pingIn cbOk (List.replicate ps.length .recv) s).queue =
        s.queue ++ decodedOf decode pingIn ps ∧
      (pipeRun decode pingIn cbOk (List.replicate ps.length .recv) s).delivered =
        s.delivered := by
  intro ps
  induction ps with
  | nil =>
    intro s hs
    refine ⟨hs, ?_, rfl⟩
    simp [pipeRun, decodedOf]
  | cons f rest ih =>
    intro s hs
    rw [List.length_cons, List.replicate_succ, pipeRun_recv_cons]
    obtain ⟨pending, queue, delivered, pongs, cbErrors⟩ := s
    dsimp only at hs
    subst hs
    unfold recvStep
    dsimp only
    by_cases hp : pingIn f = true
    · rw [if_pos hp]
      obtain ⟨h1, h2, h3⟩ := ih ⟨rest, queue, delivered, pongs + 1, cbErrors⟩ rfl
      refine ⟨h1, ?_, h3⟩
      rw [h2]
      unfold decodedOf
      rw [List.filterMap_cons]
      simp [hp]
    · rw [if_neg hp]
      have hpf : pingIn f = false := by
        cases hx : pingIn f
        · rfl
        · exact absurd hx hp
      cases hd : decode f with
      | some m =>
        obtain ⟨h1, h2, h3⟩ := ih ⟨rest, queue ++ [m], delivered, pongs, cbErrors⟩ rfl
        refine ⟨h1, ?_, h3⟩
        rw [h2]
        unfold decodedOf
        rw [List.filterMap_cons]
        simp [hpf, hd]
      | none =>
        obtain ⟨h1, h2, h3⟩ := ih ⟨rest, queue, delivered, pongs, cbErrors⟩ rfl
        refine ⟨h1, ?_, h3⟩
        rw [h2]
        unfold decodedOf
        rw [List.filterMap_cons]
        simp [hpf, hd]

theorem procRun_drains {α : Type} (decode : String → Option α)
    (pingIn : String → Bool) (cbOk : α → Bool) :
    ∀ (n : Nat) (s : PipeState α), s.queue.length ≤ n →
      (pipeRun decode pingIn cbOk (List.replicate n .proc) s).pending = s.pending ∧
      (pipeRun decode pingIn cbOk (List.replicate n .proc) s).queue = [] ∧
      (pipeRun decode pingIn cbOk (List.replicate n .proc) s).delivered =
        s.delivered ++ s.queue := by
  intro n
  induction n with
  | zero =>
    intro s h
    have hq : s.queue = [] := List.length_eq_zero.mp (Nat.le_zero.mp h)
    refine ⟨rfl, hq, ?_⟩
    rw [hq]
    simp [pipeRun]
  | succ n ih =>
    intro s h
    rw [List.replicate_succ, pipeRun_proc_cons]
    obtain ⟨pending, queue, delivered, pongs, cbErrors⟩ := s
    cases queue with
    | nil =>
      unfold procStep
      dsimp only
      obtain ⟨h1, h2, h3⟩ := ih ⟨pending, [], delivered, pongs, cbErrors⟩ (by simp)
      exact ⟨h1, h2, h3⟩
    | cons m rest =>
      unfold procStep
      dsimp only
      obtain ⟨h1, h2, h3⟩ := ih
        ⟨pending, rest, delivered ++ [m],  pongs,
          if cbOk m then cbErrors else cbErrors ++ [m]⟩
        (by simp only [List.length_cons] at h ⊢; omega)
      refine ⟨h1, h2, ?_⟩
      rw [h3]
      simp

theorem pipeRun_drain {α : Type} (decode : String → Option α)
    (pingIn : String → Bool) (cbOk : α → Bool) (frames : List String) :
    (pipeRun decode pingIn cbOk (drainSched frames) (pipeStart frames)).delivered =
      decodedOf decode pingIn frames ∧
    (pipeRun decode pingIn cbOk (drainSched frames) (pipeStart frames)).pending = [] ∧
    (pipeRun decode pingIn cbOk (drainSched frames) (pipeStart frames)).queue = [] := by
  unfold drainSched
  rw [pipeRun_append]
  obtain ⟨h1, h2, h3⟩ := recvRun_drains decode pingIn cbOk frames (pipeStart frames) rfl
  have hlen : (pipeRun decode pingIn cbOk
      (List.replicate frames.length .recv) (pipeStart frames)).queue.length ≤
      frames.length := by
    rw [h2]
    simp only [pipeStart, List.nil_append]
    exact List.length_filterMap_le _ _
  obtain ⟨g1, g2, g3⟩ := procRun_drains decode pingIn cbOk frames.length
    (pipeRun decode pingIn cbOk (List.replicate frames.length .recv)
      (pipeStart frames)) hlen
  refine ⟨?_, ?_, ?_⟩
  · rw [g3, h3, h2]
    simp [pipeStart]
  · rw [g1, h1]
  · exact g2

theorem recvStep_sameObs {α : Type} (decode : String → Option α)
    (pingIn : String → Bool) {s1 s2 : PipeState α} (h : sameObs s1 s2) :
    sameObs (recvStep decode pingIn s1) (recvStep decode pingIn s2) := by
  obtain ⟨p1, q1, d1, g1, e1⟩ := s1
  obtain ⟨p2, q2, d2, g2, e2⟩ := s2
  obtain ⟨hp, hq, hd, hg⟩ := h
  dsimp only at hp hq hd hg
  subst hp
  subst hq
  subst hd
  subst hg
  unfold recvStep
  cases p1 with
  | nil => exact ⟨rfl, rfl, rfl, rfl⟩
  | cons f r =>
    dsimp only
    by_cases hping : pingIn f = true
    · simp [hping, sameObs]
    · cases hdec : decode f with
      | some m => simp [hping, hdec, sameObs]
      | none => simp [hping, hdec, sameObs]

theorem procStep_sameObs {α : Type} (cbOk cbOk' : α → Bool)
    {s1 s2 : PipeState α} (h : sameObs s1 s2) :
    sameObs (procStep cbOk s1) (procStep cbOk' s2) := by
  obtain ⟨p1, q1, d1, g1, e1⟩ := s1
  obtain ⟨p2, q2, d2, g2, e2⟩ := s2
  obtain ⟨hp, hq, hd, hg⟩ := h
  dsimp only at hp hq hd hg
  subst hp
  subst hq
  subst hd
  subst hg
  unfold procStep
  cases q1 with
  | nil => exact ⟨rfl, rfl, rfl, rfl⟩
  | cons m r => exact ⟨rfl, rfl, rfl, rfl⟩

/-! ### Claims -/

/-- C1, counterexample: with `KRW-BTC` already registered for the ticker
channel, a further `subscribe_ticker(['KRW-ETH'])` sends exactly one
frame, and its market list is only the newly passed `['KRW-ETH']`
(line 201 puts the `markets` argument into `codes`), not the full set now
registered for that channel type: `KRW-BTC` is registered for ticker
afterwards yet absent from the frame. -/
theorem c1_frame_only_new_markets :
    (subscribeM 9 supA wA "ticker" ["KRW-ETH"]).world.sent.length = 2 ∧
    (subscribeM 9 supA wA "ticker" ["KRW-ETH"]).world.sent.getLast? =
      some ⟨101, "ticker", ["KRW-ETH"], true, true⟩ ∧
    "KRW-BTC" ∈ marketsOf
      (subscribeM 9 supA wA "ticker" ["KRW-ETH"]).world.cs.subscribed_types
      "ticker" ∧
    "KRW-BTC" ∉ ["KRW-ETH"] := by decide

/-- C1, amended: on a connected client with a valid cached token and a
healthy transport, `_subscribe(t, ms)` sends exactly one frame carrying a
freshly supplied ticket id, the channel type, exactly the market codes
passed to this call, and `isOnlyRealtime = true`; the registry gains the
new markets only after the send (and keeps the previously registered
ones). -/
theorem c1_amended_subscribe_frame (f : Nat) (sup : EnvSupply) (w : World)
    (t : String) (ms : List String) (hT : t ∈ channelTypes)
    (hC : w.cs.is_connected = true) (hW : w.cs.websocket = true)
    (hA : memTokenOk w.cs.cache (sup.sub w.k).tNow = true)
    (hS : (sup.sub w.k).sendOk = true) :
    subscribeM (f + 1) sup w t ms = .ok true
      { w with
        k := w.k + 1
        cs := regAdd w.cs t ms
        attempted := w.attempted ++ [⟨(sup.sub w.k).ticket, t, ms, true, true⟩]
        sent := w.sent ++ [⟨(sup.sub w.k).ticket, t, ms, true, true⟩] } :=
  subscribeM_steady hT hC hW hA hS

/-- C1, witness for the amended claim at a concrete input. -/
theorem c1_amended_subscribe_frame_witness :
    "ticker" ∈ channelTypes ∧ wA.cs.is_connected = true ∧
    wA.cs.websocket = true ∧
    memTokenOk wA.cs.cache (supA.sub wA.k).tNow = true ∧
    (supA.sub wA.k).sendOk = true ∧
    subscribeM (8 + 1) supA wA "ticker" ["KRW-ETH"] = .ok true
      { wA with
        k := wA.k + 1
        cs := regAdd wA.cs "ticker" ["KRW-ETH"]
        attempted := wA.attempted ++
          [⟨(supA.sub wA.k).ticket, "ticker", ["KRW-ETH"], true, true⟩]
        sent := wA.sent ++
          [⟨(supA.sub wA.k).ticket, "ticker", ["KRW-ETH"], true, true⟩] } :=
  ⟨by decide, by decide, by decide, by decide, by decide,
    c1_amended_subscribe_frame 8 supA wA "ticker" ["KRW-ETH"] (by decide)
      (by decide) (by decide) (by decide) (by decide)⟩

/-- C2: the condition of line 207, `type_name in ['ticker', 'orderbook',
'trade']`, holds for every channel type the client can subscribe, so the
trailing format element is appended (and `_ensure_auth` consulted) for
all three — although ticker, orderbook and trade are public market-data
channels needing no authentication; the frame sent for each of them
carries the element. -/
theorem c2_format_attached_to_public_channels :
    ((subscribeM 9 supA wConn "ticker" ["KRW-BTC"]).world.sent.map
      Frame.hasFormat = [true]) ∧
    ((subscribeM 9 supA wConn "orderbook" ["KRW-BTC"]).world.sent.map
      Frame.hasFormat = [true]) ∧
    ((subscribeM 9 supA wConn "trade" ["KRW-BTC"]).world.sent.map
      Frame.hasFormat = [true]) := by decide

/-- C3: from any registry state reachable by subscribe/unsubscribe calls,
on a connected client with a valid cached token and a healthy transport,
`resubscribe_all` returns normally having sent exactly one frame per
channel type with a non-empty registered market set and none for the
others (the emitted type list is the duplicate-free filter of the three
types), and each frame's market list is exactly the set of markets
registered under its type, with no duplicate entries. -/
theorem c3_resubscribe_consolidates (f : Nat) (sup : EnvSupply) (w : World)
    (hreach : ReachableCS w.cs)
    (hC : w.cs.is_connected = true) (hW : w.cs.websocket = true)
    (hSend : ∀ i, (sup.sub i).sendOk = true)
    (hAuth : ∀ i, memTokenOk w.cs.cache (sup.sub i).tNow = true) :
    ∃ frames,
      resubAllM (f + 5) sup w = .ok ()
        { w with
          k := w.k + frames.length
          attempted := w.attempted ++ frames
          sent := w.sent ++ frames } ∧
      frames.map Frame.type =
        channelTypes.filter
          (fun t => !(marketsOf w.cs.subscribed_types t).isEmpty) ∧
      (frames.map Frame.type).Nodup ∧
      ∀ fr ∈ frames,
        fr.codes = marketsOf w.cs.subscribed_types fr.type ∧
        fr.codes.Nodup ∧
        (∀ m, m ∈ fr.codes ↔
          ∃ ts, (m, ts) ∈ w.cs.subscribed_types ∧ fr.type ∈ ts) := by
  have hwf := regWF_of_reachable hreach
  obtain ⟨frames, he, hmap, hall⟩ := resubAll_spec f sup w hwf hC hW hSend hAuth
  obtain ⟨_, hkd, _⟩ := hwf
  refine ⟨frames, he, hmap, ?_, fun fr hfr => ?_⟩
  · rw [hmap]
    exact List.Nodup.filter _ (by decide)
  · obtain ⟨hcodes, hrt, hfo⟩ := hall fr hfr
    refine ⟨hcodes, ?_, fun m => ?_⟩
    · rw [hcodes]
      exact nodup_marketsOf hkd
    · rw [hcodes]
      exact mem_marketsOf

/-- C3, witness at a reachable state with one ticker subscription. -/
theorem c3_resubscribe_consolidates_witness :
    ReachableCS wA.cs ∧ wA.cs.is_connected = true ∧
    wA.cs.websocket = true ∧ (∀ i, (supA.sub i).sendOk = true) ∧
    (∀ i, memTokenOk wA.cs.cache (supA.sub i).tNow = true) ∧
    (∃ frames,
      resubAllM (0 + 5) supA wA = .ok ()
        { wA with
          k := wA.k + frames.length
          attempted := wA.attempted ++ frames
          sent := wA.sent ++ frames } ∧
      frames.map Frame.type =
        channelTypes.filter
          (fun t => !(marketsOf wA.cs.subscribed_types t).isEmpty) ∧
      (frames.map Frame.type).Nodup ∧
      ∀ fr ∈ frames,
        fr.codes = marketsOf wA.cs.subscribed_types fr.type ∧
        fr.codes.Nodup ∧
        (∀ m, m ∈ fr.codes ↔
          ∃ ts, (m, ts) ∈ wA.cs.subscribed_types ∧ fr.type ∈ ts)) :=
  ⟨⟨supA, dbB, [(9, .subTicker ["KRW-BTC"])], rfl⟩, by decide, by decide,
    fun i => rfl,
    fun i => by
      show memTokenOk wA.cs.cache 0 = true
      decide,
    c3_resubscribe_consolidates 0 supA wA
      ⟨supA, dbB, [(9, .subTicker ["KRW-BTC"])], rfl⟩ (by decide) (by decide)
      (fun i => rfl)
      (fun i => by
        show memTokenOk wA.cs.cache 0 = true
        decide)⟩

/-- C4: under every interleaving of the Receiver and Processor
coroutines, the messages already handed to the callback, followed by
those still queued and the decodings of the frames not yet read, are
exactly the decoded non-keepalive frames in arrival order — callbacks
fire in arrival order, once per decodable non-keepalive frame, with no
reordering, duplication or skipping — and the drain schedule delivers
exactly `decodedOf frames`. -/
theorem c4_fifo_delivery {α : Type} (decode : String → Option α)
    (pingIn : String → Bool) (cbOk : α → Bool) (frames : List String)
    (sched : List Actor) :
    ((pipeRun decode pingIn cbOk sched (pipeStart frames)).delivered ++
        (pipeRun decode pingIn cbOk sched (pipeStart frames)).queue ++
        decodedOf decode pingIn
          (pipeRun decode pingIn cbOk sched (pipeStart frames)).pending =
      decodedOf decode pingIn frames) ∧
    (pipeRun decode pingIn cbOk (drainSched frames)
        (pipeStart frames)).delivered = decodedOf decode pingIn frames := by
  constructor
  · have h := pipeRun_invariant decode pingIn cbOk sched (pipeStart frames)
    simpa [pipeStart] using h
  · exact (pipeRun_drain decode pingIn cbOk frames).1

/-- C5: in an invalid-token window the claim fails on the code.  The two
overlapping `_ensure_auth` calls serialize (the body has no `await`,
so under the cooperative asyncio scheduler each runs atomically); with no
valid token in memory or store, each reaches the mint path and raises
AttributeError from `_create_jwt_token` (line 63 reads the never assigned
`self.secret_key`), leaving cache and store unchanged — so neither caller
receives a token.  The at-most-one-persisted-write half holds only
vacuously: `_ensure_auth` can never perform a persisted write. -/
theorem c5_no_caller_receives_token :
    (ensure_auth ⟨0, 0, 0, true⟩ ⟨none, none⟩ dbA = .exn ⟨none, none⟩ dbA ∧
      ensure_auth ⟨1, 2, 2, true⟩ ⟨none, none⟩ dbA = .exn ⟨none, none⟩ dbA) ∧
    ∀ env c db, (ensure_auth env c db).writes = 0 :=
  ⟨⟨by decide, by decide⟩, ensure_auth_writes⟩

/-- C6: when `websocket.send` fails on a connected client, `_subscribe`
returns `False` after exactly one send attempt (no internal retry), sets
the connection state to disconnected and drops the socket, and leaves
`subscribed_markets` and `subscribed_types` — indeed everything but the
two connection flags, the consumed uuid index and the attempted-frame
log — exactly as before the call; nothing was delivered (`sent`
unchanged). -/
theorem c6_send_failure_leaves_registry (f : Nat) (sup : EnvSupply)
    (w : World) (t : String) (ms : List String) (hT : t ∈ channelTypes)
    (hC : w.cs.is_connected = true) (hW : w.cs.websocket = true)
    (hA : memTokenOk w.cs.cache (sup.sub w.k).tNow = true)
    (hS : (sup.sub w.k).sendOk = false) :
    subscribeM (f + 1) sup w t ms = .ok false
      { w with
        k := w.k + 1
        cs := { w.cs with is_connected := false, websocket := false }
        attempted := w.attempted ++
          [⟨(sup.sub w.k).ticket, t, ms, true, true⟩] } :=
  subscribeM_sendFail hT hC hW hA hS

/-- C6, witness: a failing transport under `supB` on the subscribed,
connected state `wA`. -/
theorem c6_send_failure_leaves_registry_witness :
    "orderbook" ∈ channelTypes ∧ wA.cs.is_connected = true ∧
    wA.cs.websocket = true ∧
    memTokenOk wA.cs.cache (supB.sub wA.k).tNow = true ∧
    (supB.sub wA.k).sendOk = false ∧
    subscribeM (4 + 1) supB wA "orderbook" ["KRW-XRP"] = .ok false
      { wA with
        k := wA.k + 1
        cs := { wA.cs with is_connected := false, websocket := false }
        attempted := wA.attempted ++
          [⟨(supB.sub wA.k).ticket, "orderbook", ["KRW-XRP"], true, true⟩] } :=
  ⟨by decide, by decide, by decide, by decide, by decide,
    c6_send_failure_leaves_registry 4 supB wA "orderbook" ["KRW-XRP"]
      (by decide) (by decide) (by decide) (by decide) (by decide)⟩

/-- C7: a non-keepalive frame that fails to decode is dropped by the
Receiver — nothing is enqueued for it and the loop state is exactly as if
the stream had started right after it — and the remaining frames are
still decoded, enqueued and delivered in order. -/
theorem c7_malformed_frame_dropped {α : Type} (decode : String → Option α)
    (pingIn : String → Bool) (cbOk : α → Bool) (bad : String)
    (rest : List String) (hping : pingIn bad = false)
    (hdec : decode bad = none) :
    recvStep decode pingIn (pipeStart (bad :: rest)) = pipeStart rest ∧
    decodedOf decode pingIn (bad :: rest) = decodedOf decode pingIn rest ∧
    (pipeRun decode pingIn cbOk (drainSched (bad :: rest))
        (pipeStart (bad :: rest))).delivered =
      decodedOf decode pingIn rest := by
  have hd : decodedOf decode pingIn (bad :: rest) =
      decodedOf decode pingIn rest := by
    unfold decodedOf
    rw [List.filterMap_cons]
    simp [hping, hdec]
  refine ⟨?_, hd, ?_⟩
  · unfold recvStep pipeStart
    simp [hping, hdec]
  · rw [(pipeRun_drain decode pingIn cbOk (bad :: rest)).1, hd]

/-- C7, witness: one malformed frame followed by one decodable frame. -/
theorem c7_malformed_frame_dropped_witness :
    ((fun _ => false) : String → Bool) "bad" = false ∧
    ((fun s => if s = "f1" then some (1 : Nat) else none) "bad" = none) ∧
    (recvStep (fun s => if s = "f1" then some (1 : Nat) else none)
        (fun _ => false) (pipeStart ["bad", "f1"]) = pipeStart ["f1"] ∧
      decodedOf (fun s => if s = "f1" then some (1 : Nat) else none)
          (fun _ => false) ["bad", "f1"] =
        decodedOf (fun s => if s = "f1" then some (1 : Nat) else none)
          (fun _ => false) ["f1"] ∧
      (pipeRun (fun s => if s = "f1" then some (1 : Nat) else none)
          (fun _ => false) (fun _ => true) (drainSched ["bad", "f1"])
          (pipeStart ["bad", "f1"])).delivered =
        decodedOf (fun s => if s = "f1" then some (1 : Nat) else none)
          (fun _ => false) ["f1"]) :=
  ⟨rfl, by decide,
    c7_malformed_frame_dropped (fun s => if s = "f1" then some 1 else none)
      (fun _ => false) (fun _ => true) "bad" ["f1"] rfl (by decide)⟩

/-- C8: a callback exception is confined to the failure log: two runs
that differ only in which callbacks raise have identical pending, queue,
delivered and keepalive components under every schedule (so an exception
is never propagated into the loop state and never stops consumption),
and even with every callback raising, the drain schedule still delivers
every decoded message. -/
theorem c8_callback_exception_isolated {α : Type}
    (decode : String → Option α) (pingIn : String → Bool)
    (cbOk cbOk' : α → Bool) (sched : List Actor) (s : PipeState α)
    (frames : List String) :
    sameObs (pipeRun decode pingIn cbOk sched s)
      (pipeRun decode pingIn cbOk' sched s) ∧
    (pipeRun decode pingIn cbOk (drainSched frames)
        (pipeStart frames)).delivered = decodedOf decode pingIn frames := by
  constructor
  · have main : ∀ (sc : List Actor) (s1 s2 : PipeState α), sameObs s1 s2 →
        sameObs (pipeRun decode pingIn cbOk sc s1)
          (pipeRun decode pingIn cbOk' sc s2) := by
      intro sc
      induction sc with
      | nil => intro s1 s2 h; exact h
      | cons a r ih =>
        intro s1 s2 h
        cases a with
        | recv =>
          rw [pipeRun_recv_cons, pipeRun_recv_cons]
          exact ih _ _ (recvStep_sameObs decode pingIn h)
        | proc =>
          rw [pipeRun_proc_cons, pipeRun_proc_cons]
          exact ih _ _ (procStep_sameObs cbOk cbOk' h)
    exact main sched s s ⟨rfl, rfl, rfl, rfl⟩
  · exact (pipeRun_drain decode pingIn cbOk frames).1

/-- C9: the claim's scenario cannot end as the claim says on this code.
Whenever `_ensure_auth` has to mint (no valid token in memory or store),
line 86 raises AttributeError from `_create_jwt_token` — its line 63
reads `self.secret_key`, which nothing ever assigns — before anything is
cached, so the call fails with the cache untouched and `save_auth` is
never reached from `_ensure_auth`.  Evaluated against a store whose
writes would fail (`sqlOk = false`: its errors are the caught kind) and
against a perfectly healthy store: either way `_ensure_auth` raises and
no freshly minted token exists, is returned, or remains cached. -/
theorem c9_mint_raises_before_persist :
    ensure_auth ⟨3, 5, 5, true⟩ ⟨none, none⟩ ⟨true, true, false, none⟩ =
      .exn ⟨none, none⟩ ⟨true, true, false, none⟩ ∧
    ensure_auth ⟨4, 5, 5, true⟩ ⟨none, none⟩ dbA =
      .exn ⟨none, none⟩ dbA := by decide

/-- C10: every public operation — the three subscribes, unsubscribe,
resubscribe_all, connect and close — preserves the invariant that
`subscribed_markets` holds exactly the keys of `subscribed_types` and
that no registered market maps to an empty channel-type list (`RegInv`;
`RegWF` additionally carries the Python set/dict representation facts,
also preserved). -/
theorem c10_registry_invariant (f : Nat) (sup : EnvSupply) (c : PubCall)
    (w : World) (h : RegWF w.cs) :
    RegInv (applyCall f sup c w).cs ∧ RegWF (applyCall f sup c w).cs := by
  have h2 := @regWF_applyCall f sup c w h
  exact ⟨h2.1, h2⟩

/-- C10, witness: a subscribe call on the fresh client. -/
theorem c10_registry_invariant_witness :
    RegWF (initWorld dbA).cs ∧
    (RegInv (applyCall 9 supA (.subTicker ["KRW-BTC"]) (initWorld dbA)).cs ∧
      RegWF (applyCall 9 supA (.subTicker ["KRW-BTC"]) (initWorld dbA)).cs) := by
  have h := regWF_initWorld dbA
  exact ⟨h, c10_registry_invariant 9 supA (.subTicker ["KRW-BTC"])
    (initWorld dbA) h⟩

end Upbit
